import Mathlib

/-!
Shallow embedding of the replicated key-value store (package `store`,
files `store/wal.go` and the raft-enabled `KVStore` in the same package).

External resources reached by the Go code through process-wide handles —
the `walog.ndjson` append-only file written by `appendLogToFile`, the
global bolt database `db`, and the raft handle `kv.raft` — are modelled
as explicit state: the WAL file is a list of entries, the persistent
bucket is an association list, and a proposal to raft is recorded as an
effect in an explicit effect trace, with the outcome of `f.Error()`
supplied as a parameter (it is decided by the consensus layer, outside
this code).  Go channels of capacity 10 (`make(chan string, 10)`) are
modelled as bounded message queues; a watcher is identified by a numeric
id standing for its Go pointer identity.
-/

namespace KVSpec

/-- Go `type Operation uint8` with constants `Write = 0`, `Delete = 1`. -/
inductive Operation where
  | Write
  | Delete
deriving DecidableEq, Repr

/-- Go `type WalLog struct { Operation; Key; Value; Timestamp }`. -/
structure WalLog where
  operation : Operation
  key : String
  value : String
  timestamp : Int
deriving DecidableEq, Repr

/-- Go `func appendLogToFile(wallog WalLog)`: appends one record to the
`walog.ndjson` file, modelled as appending to the list of entries. -/
def appendLogToFile (wal : List WalLog) (wallog : WalLog) : List WalLog :=
  wal ++ [wallog]

/-- Go `func LogWrite(key, value string)`; the Unix timestamp
`time.Now().Unix()` is an input of the model. -/
def LogWrite (wal : List WalLog) (key value : String) (ts : Int) : List WalLog :=
  appendLogToFile wal
    { operation := Operation.Write, key := key, value := value, timestamp := ts }

/-- Go `func LogDelete(key string)`: value recorded as `""`. -/
def LogDelete (wal : List WalLog) (key : String) (ts : Int) : List WalLog :=
  appendLogToFile wal
    { operation := Operation.Delete, key := key, value := "", timestamp := ts }

/-- Go `map[string]string`, as an association list with unique keys kept
by construction: `mapPut` replaces in place or appends, `mapDel` removes
the key, `mapGet` finds the entry. -/
def mapGet (m : List (String × String)) (k : String) : Option String :=
  (m.find? (fun p => p.1 = k)).map Prod.snd

/-- Go `m[k] = v`: replace the value of the first entry of key `k`,
or append a fresh entry when `k` is absent. -/
def mapPut (m : List (String × String)) (k v : String) : List (String × String) :=
  match m with
  | [] => [(k, v)]
  | (k', v') :: rest =>
      if k' = k then (k', v) :: rest else (k', v') :: mapPut rest k v

/-- Go `delete(m, k)`: remove every entry of key `k`. -/
def mapDel (m : List (String × String)) (k : String) : List (String × String) :=
  m.filter (fun p => ¬ p.1 = k)

/-- Go `type KVWatcher struct { Key string; Events chan string }`: the
channel contents are the queued, undrained messages, oldest first. -/
structure KVWatcher where
  key : String
  events : List String
deriving DecidableEq, Repr

/-- Capacity of a watcher channel: `make(chan string, 10)`. -/
def watcherChanCap : Nat := 10

/-- Go `type command struct { Op; Key; Value string }`, the unit
proposed to raft. -/
structure command where
  op : String
  key : String
  value : String
deriving DecidableEq, Repr

/-- One observable side effect of a store operation, in program order:
WAL file append, in-memory map write, bolt `db.Update` write, a
non-blocking channel send that succeeded (`notifySend`) or hit the
`default` branch of the `select` (`notifyDrop`), a `close` of a watcher
channel, and `kv.raft.Apply` on the marshalled command (`propose`). -/
inductive Effect where
  | walAppend (entry : WalLog)
  | memWrite (key value : String)
  | memDelete (key : String)
  | dbPut (key value : String)
  | dbDelete (key : String)
  | notifySend (wid : Nat) (msg : String)
  | notifyDrop (wid : Nat)
  | closeChan (wid : Nat)
  | propose (c : command)
deriving DecidableEq, Repr

/-- Go `type KVStore struct`: the in-memory map `store` and the watcher
registry `watchers` (flattened to one list in registration order; the
per-key slice `kv.watchers[key]` is its restriction to that key), plus
the modelled external state: the WAL file and the bolt bucket.  `nextId`
generates fresh watcher identities (Go pointer freshness). -/
structure KVStore where
  store : List (String × String)
  watchers : List (Nat × KVWatcher)
  wal : List WalLog
  dbStore : List (String × String)
  nextId : Nat
deriving DecidableEq, Repr

/-- Go `func NewKVStore() *KVStore` with fresh external state. -/
def NewKVStore : KVStore :=
  { store := [], watchers := [], wal := [], dbStore := [], nextId := 0 }

/-- The message built by `fmt.Sprintf("Key %s updated to %s", key, value)`. -/
def updateMsg (key value : String) : String :=
  "Key " ++ key ++ " updated to " ++ value

/-- The `select { case w.Events <- msg: default: }` send: enqueue when
the channel has free capacity, otherwise leave the queue unchanged and
report the drop. -/
def sendNonBlocking (w : KVWatcher) (msg : String) : KVWatcher × Bool :=
  if w.events.length < watcherChanCap then
    ({ w with events := w.events ++ [msg] }, true)
  else
    (w, false)

/-- The fan-out loop of `Put` over `kv.watchers[key]`: every registered
watcher on `key`, in registration order, gets one non-blocking send. -/
def notifyWatchers (ws : List (Nat × KVWatcher)) (key msg : String) :
    List (Nat × KVWatcher) × List Effect :=
  match ws with
  | [] => ([], [])
  | (i, w) :: rest =>
      let tail := notifyWatchers rest key msg
      if w.key = key then
        let sent := sendNonBlocking w msg
        ((i, sent.1) :: tail.1,
          (if sent.2 then Effect.notifySend i msg else Effect.notifyDrop i) :: tail.2)
      else
        ((i, w) :: tail.1, tail.2)

/-- Go `func (kv *KVStore) Put(key, value string) interface{}`: append a
WAL entry, upsert the in-memory map, upsert the bolt bucket, notify the
watchers on `key` non-blockingly, then marshal `{op:"put",key,value}`
and propose it to raft, returning `f.Error()` (the parameter
`proposeErr`, decided by the consensus layer). -/
def KVStore.Put (kv : KVStore) (key value : String) (ts : Int)
    (proposeErr : Option String) : KVStore × List Effect × Option String :=
  let wal' := LogWrite kv.wal key value ts
  let store' := mapPut kv.store key value
  let db' := mapPut kv.dbStore key value
  let fan := notifyWatchers kv.watchers key (updateMsg key value)
  let c : command := { op := "put", key := key, value := value }
  ({ kv with wal := wal', store := store', dbStore := db', watchers := fan.1 },
    Effect.walAppend { operation := Operation.Write, key := key, value := value, timestamp := ts }
      :: Effect.memWrite key value
      :: Effect.dbPut key value
      :: fan.2 ++ [Effect.propose c],
    proposeErr)

/-- Go `func (kv *KVStore) Delete(key string) interface{}`: append a WAL
entry, delete from the in-memory map, delete from the bolt bucket, then
propose `{op:"del",key,value:""}` and return `f.Error()`.  No watcher is
touched. -/
def KVStore.Delete (kv : KVStore) (key : String) (ts : Int)
    (proposeErr : Option String) : KVStore × List Effect × Option String :=
  let c : command := { op := "del", key := key, value := "" }
  ({ kv with wal := LogDelete kv.wal key ts,
             store := mapDel kv.store key,
             dbStore := mapDel kv.dbStore key },
    [Effect.walAppend { operation := Operation.Delete, key := key, value := "", timestamp := ts },
     Effect.memDelete key,
     Effect.dbDelete key,
     Effect.propose c],
    proposeErr)

/-- Go `func (kv *KVStore) Get(key string) string`: read `kv.store[key]`;
a Go map read of an absent key yields the zero value `""`. -/
def KVStore.Get (kv : KVStore) (key : String) : String :=
  (mapGet kv.store key).getD ""

/-- Go `func (kv *KVStore) Watch(key string) *KVWatcher`: create a
watcher with an empty capacity-10 channel, append it to `kv.watchers[key]`
and return it (here: its fresh id). -/
def KVStore.Watch (kv : KVStore) (key : String) : KVStore × Nat :=
  ({ kv with watchers := kv.watchers ++ [(kv.nextId, { key := key, events := [] })],
             nextId := kv.nextId + 1 },
    kv.nextId)

/-- Removal step of `Unwatch`: drop the first entry of id `wid`,
reporting whether one was found. -/
def removeWatcher (ws : List (Nat × KVWatcher)) (wid : Nat) :
    List (Nat × KVWatcher) × Bool :=
  match ws with
  | [] => ([], false)
  | (i, w) :: rest =>
      if i = wid then (rest, true)
      else
        let tail := removeWatcher rest wid
        ((i, w) :: tail.1, tail.2)

/-- Go `func (kv *KVStore) Unwatch(watcherToUnwatch *KVWatcher)`: scan
the watcher list of the watcher's key for the same pointer (here: id);
on the first match, remove it from the slice, `close` its channel and
`break`; when no entry matches, nothing happens. -/
def KVStore.Unwatch (kv : KVStore) (wid : Nat) : KVStore × List Effect :=
  let rem := removeWatcher kv.watchers wid
  if rem.2 then ({ kv with watchers := rem.1 }, [Effect.closeChan wid])
  else (kv, [])

/-- Go `func (f *fsm) ApplyPut(key, value string) interface{}`: the body
is `return nil` — no state is read or written. -/
def fsm.ApplyPut (kv : KVStore) (key value : String) :
    KVStore × List Effect × Option String :=
  (kv, [], none)

/-- Go `func (f *fsm) ApplyDelete(key string) interface{}`: the body is
`return nil` — no state is read or written. -/
def fsm.ApplyDelete (kv : KVStore) (key : String) :
    KVStore × List Effect × Option String :=
  (kv, [], none)

/-- Go `func (f *fsm) Apply(l *raft.Log) interface{}`: unmarshal the
command and dispatch on `c.Op`; an unrecognized op panics (`none`). -/
def fsm.Apply (kv : KVStore) (c : command) :
    Option (KVStore × List Effect × Option String) :=
  if c.op = "put" then some (fsm.ApplyPut kv c.key c.value)
  else if c.op = "del" then some (fsm.ApplyDelete kv c.key)
  else none

/-- One client mutation call: `Put(k,v)` or `Delete(k)`, together with
its ambient inputs — the wall-clock timestamp taken inside the call and
the outcome the consensus layer hands back for the proposal. -/
inductive Mutation where
  | put (key value : String) (ts : Int) (proposeErr : Option String)
  | del (key : String) (ts : Int) (proposeErr : Option String)
deriving DecidableEq, Repr

/-- State after one mutation call. -/
def runMutation (kv : KVStore) : Mutation → KVStore
  | Mutation.put k v ts e => (KVStore.Put kv k v ts e).1
  | Mutation.del k ts e => (KVStore.Delete kv k ts e).1

/-- State after a sequence of mutation calls, in call order. -/
def runMutations (kv : KVStore) (ms : List Mutation) : KVStore :=
  ms.foldl runMutation kv

/-- The WAL entry a mutation call appends. -/
def walEntryOf : Mutation → WalLog
  | Mutation.put k v ts _ =>
      { operation := Operation.Write, key := k, value := v, timestamp := ts }
  | Mutation.del k ts _ =>
      { operation := Operation.Delete, key := k, value := "", timestamp := ts }

/-- The bare command content of a mutation call, without its ambient
timestamp and proposal outcome. -/
def commandOf : Mutation → command
  | Mutation.put k v _ _ => { op := "put", key := k, value := v }
  | Mutation.del k _ _ => { op := "del", key := k, value := "" }

/-- Pure replay of bare commands on a map: upsert for put, removal for
delete.  This is the reference function of the determinism property. -/
def replayMap (cs : List command) : List (String × String) :=
  cs.foldl (fun m c => if c.op = "put" then mapPut m c.key c.value else mapDel m c.key) []

/-- Whether a mutation call targets key `k`. -/
def mutatesKey (k : String) : Mutation → Bool
  | Mutation.put k' _ _ _ => k' = k
  | Mutation.del k' _ _ => k' = k

/-- Whether an effect is a watcher-channel interaction (a send, a drop
or a close). -/
def isWatcherEffect : Effect → Bool
  | Effect.notifySend _ _ => true
  | Effect.notifyDrop _ => true
  | Effect.closeChan _ => true
  | _ => false

/-- The queued messages of the watcher registered under id `wid`, or
`none` when no such watcher is registered. -/
def watcherEvents (kv : KVStore) (wid : Nat) : Option (List String) :=
  (kv.watchers.find? (fun p => p.1 = wid)).map (fun p => p.2.events)

theorem mapGet_mapPut_self (m : List (String × String)) (k v : String) :
    mapGet (mapPut m k v) k = some v := by
  induction m with
  | nil => simp [mapPut, mapGet]
  | cons p rest ih =>
      rcases p with ⟨k', v'⟩
      by_cases h : k' = k
      · subst h
        simp [mapPut, mapGet]
      · simp only [mapPut, if_neg h]
        simpa [mapGet, List.find?_cons, h] using ih

theorem mapGet_mapDel_self (m : List (String × String)) (k : String) :
    mapGet (mapDel m k) k = none := by
  have h : List.find? (fun p => p.1 = k) (mapDel m k) = none := by
    rw [List.find?_eq_none]
    intro p hp
    simp only [mapDel, List.mem_filter] at hp
    simpa using hp.2
  simp [mapGet, h]

theorem mapPut_idem (m : List (String × String)) (k v : String) :
    mapPut (mapPut m k v) k v = mapPut m k v := by
  induction m with
  | nil => simp [mapPut]
  | cons p rest ih =>
      rcases p with ⟨k', v'⟩
      by_cases h : k' = k
      · simp [mapPut, h]
      · simp [mapPut, h, ih]

theorem mapDel_idem (m : List (String × String)) (k : String) :
    mapDel (mapDel m k) k = mapDel m k := by
  simp only [mapDel]
  rw [List.filter_filter]
  simp

theorem mapGet_mapPut_ne (m : List (String × String)) (k k' v : String)
    (h : ¬ k' = k) : mapGet (mapPut m k' v) k = mapGet m k := by
  induction m with
  | nil => simp [mapPut, mapGet, h]
  | cons p rest ih =>
      rcases p with ⟨k₀, v₀⟩
      by_cases h0 : k₀ = k'
      · subst h0
        simp [mapPut, mapGet, h]
      · simp only [mapPut, if_neg h0]
        by_cases h1 : k₀ = k
        · subst h1
          simp [mapGet]
        · simpa [mapGet, List.find?_cons, h1] using ih

theorem mapGet_mapDel_ne (m : List (String × String)) (k k' : String)
    (h : ¬ k' = k) : mapGet (mapDel m k') k = mapGet m k := by
  induction m with
  | nil => rfl
  | cons p rest ih =>
      rcases p with ⟨k₀, v₀⟩
      by_cases h0 : k₀ = k'
      · subst h0
        have hk : ¬ k₀ = k := h
        simp [mapDel, mapGet, List.find?_cons, hk] at ih ⊢
        exact ih
      · by_cases h1 : k₀ = k
        · subst h1
          simp [mapDel, mapGet, List.find?_cons, h0]
        · simp [mapDel, mapGet, List.find?_cons, h0, h1] at ih ⊢
          exact ih

/-- The per-watcher outcome of the fan-out of `Put key`: a watcher on
`key` whose channel has free capacity gets the message appended to its
queue; every other watcher (other key, or full queue) is unchanged. -/
def notifyFun (k msg : String) (p : Nat × KVWatcher) : Nat × KVWatcher :=
  if p.2.key = k ∧ p.2.events.length < watcherChanCap then
    (p.1, { key := p.2.key, events := p.2.events ++ [msg] })
  else p

theorem notifyWatchers_watchers_eq (ws : List (Nat × KVWatcher)) (k msg : String) :
    (notifyWatchers ws k msg).1 = ws.map (notifyFun k msg) := by
  induction ws with
  | nil => rfl
  | cons hd tl ih =>
      rcases hd with ⟨i, w⟩
      simp only [notifyWatchers, List.map_cons]
      by_cases h : w.key = k
      · rw [if_pos h]
        by_cases hl : w.events.length < watcherChanCap
        · simp [notifyFun, sendNonBlocking, h, hl, ih]
        · simp [notifyFun, sendNonBlocking, h, hl, ih]
      · rw [if_neg h]
        simp [notifyFun, h, ih]

theorem notifyWatchers_trace_eq (ws : List (Nat × KVWatcher)) (k msg : String) :
    (notifyWatchers ws k msg).2 =
      (ws.filter (fun p => p.2.key = k)).map (fun p =>
        if p.2.events.length < watcherChanCap then Effect.notifySend p.1 msg
        else Effect.notifyDrop p.1) := by
  induction ws with
  | nil => rfl
  | cons hd tl ih =>
      rcases hd with ⟨i, w⟩
      simp only [notifyWatchers]
      by_cases h : w.key = k
      · rw [if_pos h]
        by_cases hl : w.events.length < watcherChanCap
        · simp [sendNonBlocking, h, hl, ih, List.filter_cons]
        · simp [sendNonBlocking, h, hl, ih, List.filter_cons]
      · rw [if_neg h]
        simp [h, ih, List.filter_cons]

theorem notifyWatchers_effects (ws : List (Nat × KVWatcher)) (k msg : String) :
    ∀ x ∈ (notifyWatchers ws k msg).2, isWatcherEffect x = true := by
  induction ws with
  | nil =>
      intro x hx
      simp [notifyWatchers] at hx
  | cons hd tl ih =>
      rcases hd with ⟨i, w⟩
      intro x hx
      simp only [notifyWatchers] at hx
      by_cases h : w.key = k
      · rw [if_pos h] at hx
        simp only [List.mem_cons] at hx
        rcases hx with h1 | h2
        · subst h1
          by_cases hs : (sendNonBlocking w msg).2 <;> simp [hs, isWatcherEffect]
        · exact ih x h2
      · rw [if_neg h] at hx
        exact ih x hx

end KVSpec

/-- C1: the spec requires `Apply({Put,k,v})` to append a WAL entry,
upsert the in-memory and persistent maps and notify the watchers on
`k`; the code's `fsm.Apply` dispatches a put command to `fsm.ApplyPut`,
whose body is `return nil`: for every store state, applying a committed
put command leaves the state completely unchanged and produces no
effect.  This theorem evaluates the code's apply path, exhibiting the
divergence from the claim. -/
theorem KVSpec.Apply_put_command_is_noop (kv : KVSpec.KVStore) (k v : String) :
    KVSpec.fsm.Apply kv { op := "put", key := k, value := v } =
      some (kv, [], none) := rfl

/-- C2: both `Put` and `Delete` perform the WAL append, the in-memory
update, the persistent-store write and (for `Put`) the watcher fan-out
strictly before the `raft.Apply` proposal — the proposal is the last
effect of the trace — and the resulting state is identical whatever the
proposal outcome `e` is, while the call returns exactly `e`: an error
from the proposal never rolls back the already-applied local mutation. -/
theorem KVSpec.Put_Delete_mutate_before_propose (kv : KVSpec.KVStore)
    (k v : String) (ts : Int) (e : Option String) :
    ((KVSpec.KVStore.Put kv k v ts e).2.2 = e ∧
      (KVSpec.KVStore.Put kv k v ts e).1 = (KVSpec.KVStore.Put kv k v ts none).1 ∧
      (KVSpec.KVStore.Put kv k v ts e).1.wal =
        kv.wal ++ [⟨KVSpec.Operation.Write, k, v, ts⟩] ∧
      KVSpec.mapGet (KVSpec.KVStore.Put kv k v ts e).1.store k = some v ∧
      KVSpec.mapGet (KVSpec.KVStore.Put kv k v ts e).1.dbStore k = some v ∧
      (∃ fanout,
        (KVSpec.KVStore.Put kv k v ts e).2.1 =
          KVSpec.Effect.walAppend ⟨KVSpec.Operation.Write, k, v, ts⟩
            :: KVSpec.Effect.memWrite k v
            :: KVSpec.Effect.dbPut k v
            :: fanout ++ [KVSpec.Effect.propose { op := "put", key := k, value := v }] ∧
        ∀ x ∈ fanout, KVSpec.isWatcherEffect x = true)) ∧
    ((KVSpec.KVStore.Delete kv k ts e).2.2 = e ∧
      (KVSpec.KVStore.Delete kv k ts e).1 = (KVSpec.KVStore.Delete kv k ts none).1 ∧
      (KVSpec.KVStore.Delete kv k ts e).1.wal =
        kv.wal ++ [⟨KVSpec.Operation.Delete, k, "", ts⟩] ∧
      KVSpec.mapGet (KVSpec.KVStore.Delete kv k ts e).1.store k = none ∧
      KVSpec.mapGet (KVSpec.KVStore.Delete kv k ts e).1.dbStore k = none ∧
      (KVSpec.KVStore.Delete kv k ts e).2.1 =
        [KVSpec.Effect.walAppend ⟨KVSpec.Operation.Delete, k, "", ts⟩,
         KVSpec.Effect.memDelete k,
         KVSpec.Effect.dbDelete k,
         KVSpec.Effect.propose { op := "del", key := k, value := "" }]) := by
  refine ⟨⟨rfl, rfl, rfl, ?_, ?_, ?_⟩, rfl, rfl, rfl, ?_, ?_, rfl⟩
  · exact KVSpec.mapGet_mapPut_self kv.store k v
  · exact KVSpec.mapGet_mapPut_self kv.dbStore k v
  · exact ⟨(KVSpec.notifyWatchers kv.watchers k (KVSpec.updateMsg k v)).2, rfl,
      KVSpec.notifyWatchers_effects kv.watchers k (KVSpec.updateMsg k v)⟩
  · exact KVSpec.mapGet_mapDel_self kv.store k
  · exact KVSpec.mapGet_mapDel_self kv.dbStore k

/-- Witness for C2 at a concrete input: a put on a fresh store with a
failing proposal returns the proposal error yet leaves the same state
as a put whose proposal succeeded. -/
theorem KVSpec.Put_Delete_mutate_before_propose_witness :
    (KVSpec.KVStore.Put KVSpec.NewKVStore "a" "1" 0 (some "not leader")).2.2 =
      some "not leader" ∧
    (KVSpec.KVStore.Put KVSpec.NewKVStore "a" "1" 0 (some "not leader")).1 =
      (KVSpec.KVStore.Put KVSpec.NewKVStore "a" "1" 0 none).1 ∧
    KVSpec.mapGet
      (KVSpec.KVStore.Put KVSpec.NewKVStore "a" "1" 0 (some "not leader")).1.store "a" =
      some "1" :=
  ⟨(KVSpec.Put_Delete_mutate_before_propose KVSpec.NewKVStore "a" "1" 0
      (some "not leader")).1.1,
   (KVSpec.Put_Delete_mutate_before_propose KVSpec.NewKVStore "a" "1" 0
      (some "not leader")).1.2.1,
   (KVSpec.Put_Delete_mutate_before_propose KVSpec.NewKVStore "a" "1" 0
      (some "not leader")).1.2.2.2.1⟩

/-- C6: `Delete` leaves the watcher registry — every watcher and its
queued messages — exactly as it was, and its effect trace contains no
watcher-channel interaction: no send, no drop, no close.  Only `Put`
notifies. -/
theorem KVSpec.Delete_touches_no_watcher (kv : KVSpec.KVStore) (k : String)
    (ts : Int) (e : Option String) :
    (KVSpec.KVStore.Delete kv k ts e).1.watchers = kv.watchers ∧
    (∀ wid, KVSpec.watcherEvents (KVSpec.KVStore.Delete kv k ts e).1 wid =
      KVSpec.watcherEvents kv wid) ∧
    ∀ x ∈ (KVSpec.KVStore.Delete kv k ts e).2.1, KVSpec.isWatcherEffect x = false := by
  refine ⟨rfl, fun wid => rfl, ?_⟩
  intro x hx
  simp only [KVSpec.KVStore.Delete, List.mem_cons, List.mem_singleton] at hx
  rcases hx with h | h | h | h | h
  all_goals first
    | (subst h; rfl)
    | exact absurd h (by simp)

/-- Witness for C6 at a concrete input: deleting `"a"` on a store with
one watcher registered on `"a"` leaves the watcher registry unchanged. -/
theorem KVSpec.Delete_touches_no_watcher_witness :
    (KVSpec.KVStore.Delete
        { store := [("a", "1")], watchers := [(0, { key := "a", events := [] })],
          wal := [], dbStore := [], nextId := 1 } "a" 0 none).1.watchers =
      [(0, { key := "a", events := [] })] :=
  (KVSpec.Delete_touches_no_watcher
    { store := [("a", "1")], watchers := [(0, { key := "a", events := [] })],
      wal := [], dbStore := [], nextId := 1 } "a" 0 none).1

/-- C8: applying the same put command twice in succession leaves both
the in-memory map and the persistent map in the same state as applying
it once, and likewise for the same delete command: duplicate
application of a committed command does not corrupt the map state. -/
theorem KVSpec.duplicate_command_application_idempotent (kv : KVSpec.KVStore)
    (k v : String) (ts₁ ts₂ : Int) (e₁ e₂ : Option String) :
    ((KVSpec.KVStore.Put (KVSpec.KVStore.Put kv k v ts₁ e₁).1 k v ts₂ e₂).1.store =
        (KVSpec.KVStore.Put kv k v ts₁ e₁).1.store ∧
      (KVSpec.KVStore.Put (KVSpec.KVStore.Put kv k v ts₁ e₁).1 k v ts₂ e₂).1.dbStore =
        (KVSpec.KVStore.Put kv k v ts₁ e₁).1.dbStore) ∧
    ((KVSpec.KVStore.Delete (KVSpec.KVStore.Delete kv k ts₁ e₁).1 k ts₂ e₂).1.store =
        (KVSpec.KVStore.Delete kv k ts₁ e₁).1.store ∧
      (KVSpec.KVStore.Delete (KVSpec.KVStore.Delete kv k ts₁ e₁).1 k ts₂ e₂).1.dbStore =
        (KVSpec.KVStore.Delete kv k ts₁ e₁).1.dbStore) := by
  refine ⟨⟨?_, ?_⟩, ?_, ?_⟩
  · exact KVSpec.mapPut_idem kv.store k v
  · exact KVSpec.mapPut_idem kv.dbStore k v
  · exact KVSpec.mapDel_idem kv.store k
  · exact KVSpec.mapDel_idem kv.dbStore k

namespace KVSpec

theorem Get_preserved_of_no_mutation (kv : KVStore) (k : String)
    (ms : List Mutation) (h : ∀ m ∈ ms, mutatesKey k m = false) :
    KVStore.Get (runMutations kv ms) k = KVStore.Get kv k := by
  induction ms generalizing kv with
  | nil => rfl
  | cons m rest ih =>
      have hm : mutatesKey k m = false := h m (List.mem_cons_self m rest)
      have hrest : ∀ m' ∈ rest, mutatesKey k m' = false :=
        fun m' hm' => h m' (List.mem_cons_of_mem m hm')
      have step : KVStore.Get (runMutation kv m) k = KVStore.Get kv k := by
        cases m with
        | put k' v' ts e =>
            have hk : ¬ k' = k := by simpa [mutatesKey] using hm
            simp [runMutation, KVStore.Put, KVStore.Get, mapGet_mapPut_ne _ _ _ _ hk]
        | del k' ts e =>
            have hk : ¬ k' = k := by simpa [mutatesKey] using hm
            simp [runMutation, KVStore.Delete, KVStore.Get, mapGet_mapDel_ne _ _ _ hk]
      calc KVStore.Get (runMutations kv (m :: rest)) k
          = KVStore.Get (runMutations (runMutation kv m) rest) k := rfl
        _ = KVStore.Get (runMutation kv m) k := ih (runMutation kv m) hrest
        _ = KVStore.Get kv k := step

end KVSpec

/-- C3: after `Put(k,v)`, any sequence of further mutation calls none of
which targets `k` leaves `Get(k) = v`; after `Delete(k)`, under the same
condition, `Get(k)` returns the empty string. -/
theorem KVSpec.Put_then_Get_and_Delete_then_Get (kv : KVSpec.KVStore)
    (k v : String) (ts : Int) (e : Option String) (ms : List KVSpec.Mutation)
    (h : ∀ m ∈ ms, KVSpec.mutatesKey k m = false) :
    KVSpec.KVStore.Get (KVSpec.runMutations (KVSpec.KVStore.Put kv k v ts e).1 ms) k = v ∧
    KVSpec.KVStore.Get (KVSpec.runMutations (KVSpec.KVStore.Delete kv k ts e).1 ms) k = "" := by
  constructor
  · rw [KVSpec.Get_preserved_of_no_mutation _ _ _ h]
    simp [KVSpec.KVStore.Get, KVSpec.KVStore.Put, KVSpec.mapGet_mapPut_self]
  · rw [KVSpec.Get_preserved_of_no_mutation _ _ _ h]
    simp [KVSpec.KVStore.Get, KVSpec.KVStore.Delete, KVSpec.mapGet_mapDel_self]

/-- Witness for C3 at a concrete input: `Put("a","1")` then a mutation
of key `"b"` leaves `Get("a") = "1"`; `Delete("a")` then the same
mutation leaves `Get("a") = ""`. -/
theorem KVSpec.Put_then_Get_and_Delete_then_Get_witness :
    (∀ m ∈ [KVSpec.Mutation.put "b" "2" 1 none], KVSpec.mutatesKey "a" m = false) ∧
    (KVSpec.KVStore.Get
        (KVSpec.runMutations (KVSpec.KVStore.Put KVSpec.NewKVStore "a" "1" 0 none).1
          [KVSpec.Mutation.put "b" "2" 1 none]) "a" = "1" ∧
      KVSpec.KVStore.Get
        (KVSpec.runMutations (KVSpec.KVStore.Delete KVSpec.NewKVStore "a" 0 none).1
          [KVSpec.Mutation.put "b" "2" 1 none]) "a" = "") :=
  ⟨by decide, KVSpec.Put_then_Get_and_Delete_then_Get KVSpec.NewKVStore "a" "1" 0 none
    [KVSpec.Mutation.put "b" "2" 1 none] (by decide)⟩

/-- C4: the watcher registry after `Put(k,v)` is exactly the old
registry with, for each watcher on `k` whose queue holds fewer than 10
messages, the single message `updateMsg k v` appended, and every other
watcher (full queue, or other key) unchanged; the fan-out trace has one
entry per watcher on `k` — a successful send for those with free space,
a silent drop for those with a full queue — so `Put` is a total function
of the state and never waits on a watcher. -/
theorem KVSpec.Put_notifies_nonblocking (kv : KVSpec.KVStore)
    (k v : String) (ts : Int) (e : Option String) :
    (KVSpec.KVStore.Put kv k v ts e).1.watchers =
      kv.watchers.map (KVSpec.notifyFun k (KVSpec.updateMsg k v)) ∧
    (∀ p ∈ kv.watchers, p.2.key = k → p.2.events.length < KVSpec.watcherChanCap →
      KVSpec.notifyFun k (KVSpec.updateMsg k v) p =
        (p.1, { key := p.2.key, events := p.2.events ++ [KVSpec.updateMsg k v] })) ∧
    (∀ p ∈ kv.watchers, ¬ (p.2.key = k ∧ p.2.events.length < KVSpec.watcherChanCap) →
      KVSpec.notifyFun k (KVSpec.updateMsg k v) p = p) ∧
    (KVSpec.KVStore.Put kv k v ts e).2.1 =
      KVSpec.Effect.walAppend ⟨KVSpec.Operation.Write, k, v, ts⟩
        :: KVSpec.Effect.memWrite k v
        :: KVSpec.Effect.dbPut k v
        :: (kv.watchers.filter (fun p => p.2.key = k)).map (fun p =>
              if p.2.events.length < KVSpec.watcherChanCap
              then KVSpec.Effect.notifySend p.1 (KVSpec.updateMsg k v)
              else KVSpec.Effect.notifyDrop p.1)
          ++ [KVSpec.Effect.propose { op := "put", key := k, value := v }] := by
  refine ⟨?_, ?_, ?_, ?_⟩
  · exact KVSpec.notifyWatchers_watchers_eq kv.watchers k (KVSpec.updateMsg k v)
  · intro p _ hkey hlen
    simp [KVSpec.notifyFun, hkey, hlen]
  · intro p _ hnot
    simp [KVSpec.notifyFun, hnot]
  · show KVSpec.Effect.walAppend _ :: KVSpec.Effect.memWrite _ _ :: KVSpec.Effect.dbPut _ _
      :: (KVSpec.notifyWatchers kv.watchers k (KVSpec.updateMsg k v)).2 ++ _ = _
    rw [KVSpec.notifyWatchers_trace_eq]

/-- Witness for C4 at a concrete input: a store with one watcher on
`"a"` with an empty queue, one watcher on `"a"` with a full queue of 10
messages, and one watcher on `"b"`. -/
theorem KVSpec.Put_notifies_nonblocking_witness :
    (KVSpec.KVStore.Put
        { store := [], watchers := [(0, { key := "a", events := [] }),
            (1, { key := "a", events := ["m", "m", "m", "m", "m", "m", "m", "m", "m", "m"] }),
            (2, { key := "b", events := [] })],
          wal := [], dbStore := [], nextId := 3 } "a" "1" 0 none).1.watchers =
      [(0, { key := "a", events := [KVSpec.updateMsg "a" "1"] }),
        (1, { key := "a", events := ["m", "m", "m", "m", "m", "m", "m", "m", "m", "m"] }),
        (2, { key := "b", events := [] })] := by
  have h := KVSpec.Put_notifies_nonblocking
    { store := [], watchers := [(0, { key := "a", events := [] }),
        (1, { key := "a", events := ["m", "m", "m", "m", "m", "m", "m", "m", "m", "m"] }),
        (2, { key := "b", events := [] })],
      wal := [], dbStore := [], nextId := 3 } "a" "1" 0 none
  rw [h.1]
  decide

namespace KVSpec

theorem runMutation_wal (kv : KVStore) (m : Mutation) :
    (runMutation kv m).wal = kv.wal ++ [walEntryOf m] := by
  cases m <;> rfl

theorem runMutations_wal (kv : KVStore) (ms : List Mutation) :
    (runMutations kv ms).wal = kv.wal ++ ms.map walEntryOf := by
  induction ms generalizing kv with
  | nil => simp [runMutations]
  | cons m rest ih =>
      calc (runMutations kv (m :: rest)).wal
          = (runMutations (runMutation kv m) rest).wal := rfl
        _ = (runMutation kv m).wal ++ rest.map walEntryOf := ih (runMutation kv m)
        _ = kv.wal ++ (m :: rest).map walEntryOf := by
              simp [runMutation_wal]

theorem runMutation_store (kv : KVStore) (m : Mutation) :
    (runMutation kv m).store =
      (if (commandOf m).op = "put"
       then mapPut kv.store (commandOf m).key (commandOf m).value
       else mapDel kv.store (commandOf m).key) := by
  cases m with
  | put k v ts e => simp [runMutation, KVStore.Put, commandOf]
  | del k ts e =>
      have hop : ¬ (commandOf (Mutation.del k ts e)).op = "put" := by
        show ¬ ("del" = "put")
        decide
      rw [if_neg hop]
      rfl

theorem runMutations_store (kv : KVStore) (ms : List Mutation) :
    (runMutations kv ms).store =
      (ms.map commandOf).foldl
        (fun m c => if c.op = "put" then mapPut m c.key c.value else mapDel m c.key)
        kv.store := by
  induction ms generalizing kv with
  | nil => rfl
  | cons m rest ih =>
      calc (runMutations kv (m :: rest)).store
          = (runMutations (runMutation kv m) rest).store := rfl
        _ = (rest.map commandOf).foldl
              (fun m c => if c.op = "put" then mapPut m c.key c.value else mapDel m c.key)
              (runMutation kv m).store := ih (runMutation kv m)
        _ = _ := by rw [runMutation_store]; rfl

end KVSpec

/-- C7: starting from a store whose WAL is empty, running any sequence
of `Put`/`Delete` calls leaves the WAL holding exactly one entry per
call, in call order, each carrying the call's operation, key and value,
with `Delete` entries carrying the empty value. -/
theorem KVSpec.WAL_records_every_mutation (kv : KVSpec.KVStore)
    (ms : List KVSpec.Mutation) (h : kv.wal = []) :
    (KVSpec.runMutations kv ms).wal = ms.map KVSpec.walEntryOf ∧
    (KVSpec.runMutations kv ms).wal.length = ms.length ∧
    (∀ k v ts e, KVSpec.walEntryOf (KVSpec.Mutation.put k v ts e) =
      ⟨KVSpec.Operation.Write, k, v, ts⟩) ∧
    (∀ k ts e, KVSpec.walEntryOf (KVSpec.Mutation.del k ts e) =
      ⟨KVSpec.Operation.Delete, k, "", ts⟩) := by
  have hw : (KVSpec.runMutations kv ms).wal = ms.map KVSpec.walEntryOf := by
    rw [KVSpec.runMutations_wal, h]
    rfl
  exact ⟨hw, by rw [hw, List.length_map], fun _ _ _ _ => rfl, fun _ _ _ => rfl⟩

/-- Witness for C7 at a concrete input: a fresh store, one put and one
delete produce a two-entry WAL matching the calls in order. -/
theorem KVSpec.WAL_records_every_mutation_witness :
    KVSpec.NewKVStore.wal = [] ∧
    (KVSpec.runMutations KVSpec.NewKVStore
        [KVSpec.Mutation.put "a" "1" 5 none, KVSpec.Mutation.del "a" 6 none]).wal =
      [KVSpec.Mutation.put "a" "1" 5 none, KVSpec.Mutation.del "a" 6 none].map
        KVSpec.walEntryOf :=
  ⟨rfl, (KVSpec.WAL_records_every_mutation KVSpec.NewKVStore
    [KVSpec.Mutation.put "a" "1" 5 none, KVSpec.Mutation.del "a" 6 none] rfl).1⟩

/-- C9: the in-memory map produced by running a mutation sequence from
a fresh store is the pure replay of the bare command sequence from the
empty map — it depends on the commands alone, not on timestamps or
proposal outcomes — so two runs whose command sequences agree produce
equal in-memory maps. -/
theorem KVSpec.apply_path_deterministic (ms ms' : List KVSpec.Mutation)
    (h : ms.map KVSpec.commandOf = ms'.map KVSpec.commandOf) :
    (KVSpec.runMutations KVSpec.NewKVStore ms).store =
      KVSpec.replayMap (ms.map KVSpec.commandOf) ∧
    (KVSpec.runMutations KVSpec.NewKVStore ms).store =
      (KVSpec.runMutations KVSpec.NewKVStore ms').store := by
  have h1 : ∀ l : List KVSpec.Mutation,
      (KVSpec.runMutations KVSpec.NewKVStore l).store =
        KVSpec.replayMap (l.map KVSpec.commandOf) := by
    intro l
    rw [KVSpec.runMutations_store]
    rfl
  exact ⟨h1 ms, by rw [h1 ms, h1 ms', h]⟩

/-- Witness for C9 at a concrete input: two runs of the same put command
with different timestamps and proposal outcomes yield the same map. -/
theorem KVSpec.apply_path_deterministic_witness :
    ([KVSpec.Mutation.put "a" "1" 0 none].map KVSpec.commandOf =
      [KVSpec.Mutation.put "a" "1" 7 (some "not leader")].map KVSpec.commandOf) ∧
    (KVSpec.runMutations KVSpec.NewKVStore [KVSpec.Mutation.put "a" "1" 0 none]).store =
      KVSpec.replayMap ([KVSpec.Mutation.put "a" "1" 0 none].map KVSpec.commandOf) ∧
    (KVSpec.runMutations KVSpec.NewKVStore [KVSpec.Mutation.put "a" "1" 0 none]).store =
      (KVSpec.runMutations KVSpec.NewKVStore
        [KVSpec.Mutation.put "a" "1" 7 (some "not leader")]).store :=
  ⟨by decide, KVSpec.apply_path_deterministic
    [KVSpec.Mutation.put "a" "1" 0 none]
    [KVSpec.Mutation.put "a" "1" 7 (some "not leader")] (by decide)⟩

namespace KVSpec

theorem notifyFun_fst (k msg : String) (p : Nat × KVWatcher) :
    (notifyFun k msg p).1 = p.1 := by
  unfold notifyFun
  split <;> rfl

theorem Put_watchers_eq (kv : KVStore) (k v : String) (ts : Int)
    (e : Option String) :
    (KVStore.Put kv k v ts e).1.watchers =
      kv.watchers.map (notifyFun k (updateMsg k v)) :=
  notifyWatchers_watchers_eq kv.watchers k (updateMsg k v)

theorem find?_watchers_map_notifyFun (ws : List (Nat × KVWatcher))
    (wid : Nat) (k msg : String) :
    (ws.map (notifyFun k msg)).find? (fun p => p.1 = wid) =
      (ws.find? (fun p => p.1 = wid)).map (notifyFun k msg) := by
  rw [List.find?_map]
  have hp : ((fun p => decide (p.1 = wid)) ∘ notifyFun k msg) =
      (fun (p : Nat × KVWatcher) => decide (p.1 = wid)) := by
    funext p
    simp [Function.comp, notifyFun_fst]
  rw [hp]

theorem find?_append_left_none {α : Type} (l₁ l₂ : List α) (p : α → Bool)
    (h : ∀ x ∈ l₁, ¬ p x = true) : (l₁ ++ l₂).find? p = l₂.find? p := by
  have h1 : l₁.find? p = none := by
    rw [List.find?_eq_none]
    exact h
  rw [List.find?_append, h1]
  rfl

theorem find?_watchers_append_fresh (ws : List (Nat × KVWatcher)) (n : Nat)
    (w : KVWatcher) (wf : ∀ p ∈ ws, p.1 < n) :
    (ws ++ [(n, w)]).find? (fun p => p.1 = n) = some (n, w) := by
  rw [find?_append_left_none]
  · simp
  · intro p hp
    simpa using Nat.ne_of_lt (wf p hp)

theorem removeWatcher_not_found (l : List (Nat × KVWatcher)) (wid : Nat)
    (h : ∀ p ∈ l, ¬ p.1 = wid) : removeWatcher l wid = (l, false) := by
  induction l with
  | nil => rfl
  | cons hd tl ih =>
      rcases hd with ⟨i, w⟩
      have hi : ¬ i = wid := h (i, w) (List.mem_cons_self _ _)
      simp only [removeWatcher, if_neg hi]
      rw [ih (fun p hp => h p (List.mem_cons_of_mem _ hp))]

theorem removeWatcher_found (l₁ l₂ : List (Nat × KVWatcher)) (wid : Nat)
    (w : KVWatcher) (h : ∀ p ∈ l₁, ¬ p.1 = wid) :
    removeWatcher (l₁ ++ (wid, w) :: l₂) wid = (l₁ ++ l₂, true) := by
  induction l₁ with
  | nil => simp [removeWatcher]
  | cons hd tl ih =>
      rcases hd with ⟨i, w'⟩
      have hi : ¬ i = wid := h (i, w') (List.mem_cons_self _ _)
      simp only [List.cons_append, removeWatcher, if_neg hi, List.append_eq]
      rw [ih (fun p hp => h p (List.mem_cons_of_mem _ hp))]

theorem Unwatch_not_found (kv : KVStore) (wid : Nat)
    (h : ∀ p ∈ kv.watchers, ¬ p.1 = wid) : KVStore.Unwatch kv wid = (kv, []) := by
  simp [KVStore.Unwatch, removeWatcher_not_found kv.watchers wid h]

end KVSpec

/-- C5: from any store whose watcher ids are all below `nextId`,
`Watch(k)` then `Put(k,"1")` then `Put(k,"2")` leaves exactly the two
update messages for the values `"1"` and `"2"`, in that order, in the
new watcher's queue; a further `Put` on any other key adds nothing to
that queue; and `Unwatch` closes exactly that watcher's channel and
deregisters it. -/
theorem KVSpec.watch_two_puts_two_messages (kv : KVSpec.KVStore) (k : String)
    (ts₁ ts₂ : Int) (e₁ e₂ : Option String)
    (wf : ∀ p ∈ kv.watchers, p.1 < kv.nextId) :
    KVSpec.watcherEvents
        (KVSpec.KVStore.Put
          (KVSpec.KVStore.Put (KVSpec.KVStore.Watch kv k).1 k "1" ts₁ e₁).1
          k "2" ts₂ e₂).1
        (KVSpec.KVStore.Watch kv k).2 =
      some [KVSpec.updateMsg k "1", KVSpec.updateMsg k "2"] ∧
    (∀ k' v' ts' e', ¬ k' = k →
      KVSpec.watcherEvents
          (KVSpec.KVStore.Put
            (KVSpec.KVStore.Put
              (KVSpec.KVStore.Put (KVSpec.KVStore.Watch kv k).1 k "1" ts₁ e₁).1
              k "2" ts₂ e₂).1 k' v' ts' e').1
          (KVSpec.KVStore.Watch kv k).2 =
        some [KVSpec.updateMsg k "1", KVSpec.updateMsg k "2"]) ∧
    (KVSpec.KVStore.Unwatch
        (KVSpec.KVStore.Put
          (KVSpec.KVStore.Put (KVSpec.KVStore.Watch kv k).1 k "1" ts₁ e₁).1
          k "2" ts₂ e₂).1
        (KVSpec.KVStore.Watch kv k).2).2 =
      [KVSpec.Effect.closeChan (KVSpec.KVStore.Watch kv k).2] ∧
    KVSpec.watcherEvents
        (KVSpec.KVStore.Unwatch
          (KVSpec.KVStore.Put
            (KVSpec.KVStore.Put (KVSpec.KVStore.Watch kv k).1 k "1" ts₁ e₁).1
            k "2" ts₂ e₂).1
          (KVSpec.KVStore.Watch kv k).2).1
        (KVSpec.KVStore.Watch kv k).2 = none := by
  have hwid : (KVSpec.KVStore.Watch kv k).2 = kv.nextId := rfl
  have hs₁ : (KVSpec.KVStore.Watch kv k).1.watchers =
      kv.watchers ++ [(kv.nextId, { key := k, events := [] })] := rfl
  have hfind₁ : (KVSpec.KVStore.Watch kv k).1.watchers.find?
        (fun p => p.1 = kv.nextId) =
      some (kv.nextId, { key := k, events := [] }) := by
    rw [hs₁]
    exact KVSpec.find?_watchers_append_fresh kv.watchers kv.nextId _ wf
  have hfind₂ : (KVSpec.KVStore.Put (KVSpec.KVStore.Watch kv k).1 k "1" ts₁ e₁).1.watchers.find?
        (fun p => p.1 = kv.nextId) =
      some (kv.nextId, { key := k, events := [KVSpec.updateMsg k "1"] }) := by
    rw [KVSpec.Put_watchers_eq, KVSpec.find?_watchers_map_notifyFun, hfind₁]
    simp [KVSpec.notifyFun, KVSpec.watcherChanCap]
  have hfind₃ : (KVSpec.KVStore.Put
        (KVSpec.KVStore.Put (KVSpec.KVStore.Watch kv k).1 k "1" ts₁ e₁).1
        k "2" ts₂ e₂).1.watchers.find? (fun p => p.1 = kv.nextId) =
      some (kv.nextId,
        { key := k, events := [KVSpec.updateMsg k "1", KVSpec.updateMsg k "2"] }) := by
    rw [KVSpec.Put_watchers_eq, KVSpec.find?_watchers_map_notifyFun, hfind₂]
    simp [KVSpec.notifyFun, KVSpec.watcherChanCap]
  have hone : KVSpec.notifyFun k (KVSpec.updateMsg k "1")
        (kv.nextId, { key := k, events := [] }) =
      (kv.nextId, { key := k, events := [KVSpec.updateMsg k "1"] }) := by
    simp [KVSpec.notifyFun, KVSpec.watcherChanCap]
  have htwo : KVSpec.notifyFun k (KVSpec.updateMsg k "2")
        (kv.nextId, { key := k, events := [KVSpec.updateMsg k "1"] }) =
      (kv.nextId,
        { key := k, events := [KVSpec.updateMsg k "1", KVSpec.updateMsg k "2"] }) := by
    simp [KVSpec.notifyFun, KVSpec.watcherChanCap]
  have hws₃ : (KVSpec.KVStore.Put
        (KVSpec.KVStore.Put (KVSpec.KVStore.Watch kv k).1 k "1" ts₁ e₁).1
        k "2" ts₂ e₂).1.watchers =
      ((kv.watchers.map (KVSpec.notifyFun k (KVSpec.updateMsg k "1"))).map
          (KVSpec.notifyFun k (KVSpec.updateMsg k "2")))
        ++ [(kv.nextId,
              { key := k, events := [KVSpec.updateMsg k "1", KVSpec.updateMsg k "2"] })] := by
    rw [KVSpec.Put_watchers_eq, KVSpec.Put_watchers_eq, hs₁, List.map_append,
      List.map_append]
    simp [hone, htwo]
  have hids : ∀ p ∈ (kv.watchers.map (KVSpec.notifyFun k (KVSpec.updateMsg k "1"))).map
      (KVSpec.notifyFun k (KVSpec.updateMsg k "2")), ¬ p.1 = kv.nextId := by
    intro p hp
    rcases List.mem_map.mp hp with ⟨q, hq, rfl⟩
    rcases List.mem_map.mp hq with ⟨r, hr, rfl⟩
    rw [KVSpec.notifyFun_fst, KVSpec.notifyFun_fst]
    exact Nat.ne_of_lt (wf r hr)
  have hrem : KVSpec.removeWatcher
      (KVSpec.KVStore.Put
        (KVSpec.KVStore.Put (KVSpec.KVStore.Watch kv k).1 k "1" ts₁ e₁).1
        k "2" ts₂ e₂).1.watchers kv.nextId =
      ((kv.watchers.map (KVSpec.notifyFun k (KVSpec.updateMsg k "1"))).map
          (KVSpec.notifyFun k (KVSpec.updateMsg k "2")) ++ [], true) := by
    rw [hws₃]
    exact KVSpec.removeWatcher_found _ [] kv.nextId _ hids
  have hu2 : (KVSpec.KVStore.Unwatch
      (KVSpec.KVStore.Put
        (KVSpec.KVStore.Put (KVSpec.KVStore.Watch kv k).1 k "1" ts₁ e₁).1
        k "2" ts₂ e₂).1 kv.nextId).2 = [KVSpec.Effect.closeChan kv.nextId] := by
    simp [KVSpec.KVStore.Unwatch, hrem]
  have hu1w : (KVSpec.KVStore.Unwatch
      (KVSpec.KVStore.Put
        (KVSpec.KVStore.Put (KVSpec.KVStore.Watch kv k).1 k "1" ts₁ e₁).1
        k "2" ts₂ e₂).1 kv.nextId).1.watchers =
      (kv.watchers.map (KVSpec.notifyFun k (KVSpec.updateMsg k "1"))).map
          (KVSpec.notifyFun k (KVSpec.updateMsg k "2")) ++ [] := by
    simp [KVSpec.KVStore.Unwatch, hrem]
  refine ⟨?_, ?_, ?_, ?_⟩
  · simp only [KVSpec.watcherEvents, hwid]
    rw [hfind₃]
    rfl
  · intro k' v' ts' e' hk'
    have hne : KVSpec.notifyFun k' (KVSpec.updateMsg k' v')
        (kv.nextId,
          { key := k, events := [KVSpec.updateMsg k "1", KVSpec.updateMsg k "2"] }) =
        (kv.nextId,
          { key := k, events := [KVSpec.updateMsg k "1", KVSpec.updateMsg k "2"] }) := by
      unfold KVSpec.notifyFun
      rw [if_neg]
      rintro ⟨h1, _⟩
      exact hk' h1.symm
    simp only [KVSpec.watcherEvents, hwid]
    rw [KVSpec.Put_watchers_eq, KVSpec.find?_watchers_map_notifyFun, hfind₃]
    simp [hne]
  · exact hu2
  · simp only [KVSpec.watcherEvents, hwid]
    rw [hu1w]
    have hnone : ((kv.watchers.map (KVSpec.notifyFun k (KVSpec.updateMsg k "1"))).map
        (KVSpec.notifyFun k (KVSpec.updateMsg k "2")) ++ []).find?
          (fun (p : Nat × KVSpec.KVWatcher) => p.1 = kv.nextId) = none := by
      rw [List.find?_eq_none]
      intro p hp
      simp only [List.append_nil] at hp
      simpa using hids p hp
    rw [hnone]
    rfl

/-- Witness for C5 at a concrete input: on a fresh store, watching `"a"`
and putting `"1"` then `"2"` to it queues exactly the two update
messages, in order. -/
theorem KVSpec.watch_two_puts_two_messages_witness :
    (∀ p ∈ KVSpec.NewKVStore.watchers, p.1 < KVSpec.NewKVStore.nextId) ∧
    KVSpec.watcherEvents
        (KVSpec.KVStore.Put
          (KVSpec.KVStore.Put
            (KVSpec.KVStore.Watch KVSpec.NewKVStore "a").1 "a" "1" 0 none).1
          "a" "2" 1 none).1
        (KVSpec.KVStore.Watch KVSpec.NewKVStore "a").2 =
      some [KVSpec.updateMsg "a" "1", KVSpec.updateMsg "a" "2"] :=
  ⟨by decide, (KVSpec.watch_two_puts_two_messages KVSpec.NewKVStore "a" 0 1 none none
    (by decide)).1⟩

/-- C10: when no registered watcher carries the id, `Unwatch` leaves the
store unchanged and closes nothing; when the registry is some prefix
without the id, then the watcher, then a suffix, `Unwatch` removes
exactly that watcher, closes its channel exactly once, and — when the
suffix is also free of the id — a second `Unwatch` of the same watcher
changes nothing and closes no channel. -/
theorem KVSpec.Unwatch_removes_and_closes_once (kv : KVSpec.KVStore) (wid : Nat) :
    ((∀ p ∈ kv.watchers, ¬ p.1 = wid) → KVSpec.KVStore.Unwatch kv wid = (kv, [])) ∧
    (∀ l₁ w l₂, kv.watchers = l₁ ++ (wid, w) :: l₂ → (∀ p ∈ l₁, ¬ p.1 = wid) →
      ((KVSpec.KVStore.Unwatch kv wid).1 =
          { kv with watchers := l₁ ++ l₂ } ∧
        (KVSpec.KVStore.Unwatch kv wid).2 = [KVSpec.Effect.closeChan wid] ∧
        ((∀ p ∈ l₂, ¬ p.1 = wid) →
          KVSpec.KVStore.Unwatch (KVSpec.KVStore.Unwatch kv wid).1 wid =
            ((KVSpec.KVStore.Unwatch kv wid).1, [])))) := by
  constructor
  · intro h
    exact KVSpec.Unwatch_not_found kv wid h
  · intro l₁ w l₂ hw h₁
    have hrem : KVSpec.removeWatcher kv.watchers wid = (l₁ ++ l₂, true) := by
      rw [hw]
      exact KVSpec.removeWatcher_found l₁ l₂ wid w h₁
    have h1 : (KVSpec.KVStore.Unwatch kv wid).1 = { kv with watchers := l₁ ++ l₂ } := by
      simp [KVSpec.KVStore.Unwatch, hrem]
    have h2 : (KVSpec.KVStore.Unwatch kv wid).2 = [KVSpec.Effect.closeChan wid] := by
      simp [KVSpec.KVStore.Unwatch, hrem]
    refine ⟨h1, h2, ?_⟩
    intro h₂
    apply KVSpec.Unwatch_not_found
    rw [h1]
    intro p hp
    rcases List.mem_append.mp hp with hp1 | hp2
    · exact h₁ p hp1
    · exact h₂ p hp2

/-- Witness for C10 at a concrete input: a store with a single watcher
of id 0; the first `Unwatch` removes it and closes its channel, the
second is a no-op. -/
theorem KVSpec.Unwatch_removes_and_closes_once_witness :
    (KVSpec.KVStore.Unwatch
        { store := [], watchers := [(0, { key := "a", events := [] })],
          wal := [], dbStore := [], nextId := 1 } 0).1 =
      { store := [], watchers := [] ++ [],
        wal := [], dbStore := [], nextId := 1 } ∧
    (KVSpec.KVStore.Unwatch
        { store := [], watchers := [(0, { key := "a", events := [] })],
          wal := [], dbStore := [], nextId := 1 } 0).2 =
      [KVSpec.Effect.closeChan 0] ∧
    KVSpec.KVStore.Unwatch
        (KVSpec.KVStore.Unwatch
          { store := [], watchers := [(0, { key := "a", events := [] })],
            wal := [], dbStore := [], nextId := 1 } 0).1 0 =
      ((KVSpec.KVStore.Unwatch
          { store := [], watchers := [(0, { key := "a", events := [] })],
            wal := [], dbStore := [], nextId := 1 } 0).1, []) := by
  have h := (KVSpec.Unwatch_removes_and_closes_once
    { store := [], watchers := [(0, { key := "a", events := [] })],
      wal := [], dbStore := [], nextId := 1 } 0).2
    [] { key := "a", events := [] } [] rfl (by simp)
  exact ⟨h.1, h.2.1, h.2.2 (by simp)⟩
